import Mathlib

/-!
Verification of the MML-HoroPCA experiment pipeline.

The repository's visible sources are the two orchestration notebooks
`main.ipynb` and `main2.ipynb`.  `main2.ipynb` packages the whole experiment
into three functions, `load_graph_data`, `get_hyperbolic_embeddings` and
`run`, which this file embeds faithfully.  The library modules they call
(`geom/minkowski.py`, `geom/poincare.py`, `geom/hyperboloid.py`,
`learning/frechet.py`, `learning/pca.py`, `utils/sarkar.py`,
`utils/metrics.py`, `utils/data.py`) are not part of the visible sources;
where a property depends on them they are modelled from the specification,
and each such definition carries a doc comment saying so.

External collaborators (graph loading, pretrained-embedding files, the
numerical-tensor runtime) are abstracted as an `Env` record of opaque
functions over type parameters; the pipeline theorems are universally
quantified over the environment.
-/

/-- Observable events of one pipeline run, in execution order.  Each event
corresponds to one call made by `run` / `get_hyperbolic_embeddings` /
`load_graph_data` in `main2.ipynb`. -/
inductive Ev where
  | loadGraph (dataset : String)
  | floydWarshall
  | pickRoot
  | sarkarEmbed (tau : ℚ) (dim : Nat)
  | pairwiseDistance
  | divideBySarkarScale (tau : ℚ)
  | loadEmbeddings (dataset : String) (dim : Nat)
  | avgDistortion
  | frechetMeanEv (lr : ℚ) (eps : ℚ) (max_steps : Nat)
  | reflectAtZeroEv
  | constructModel (dim : Nat) (n_components : Nat) (lr : ℚ) (max_steps : Nat)
  | fitModel (iterative : Bool) (optim : Bool)
  | computeMetricsEv
  | mapToBallEv
  | aggregateMetricsEv
  | hmdsBaseline (n_components : Nat)
  | formatMetricsEv
  deriving DecidableEq, Repr

/-- Is the event a `model.fit` call? -/
def Ev.isFit : Ev → Bool
  | .fitModel _ _ => true
  | _ => false

/-- The run configuration: the keyword parameters of `run` in `main2.ipynb`
(the `metrics_final` list is presentational and omitted). -/
structure RunConfig where
  dataset : String
  model_type : String
  dim : Nat
  n_components : Nat
  n_runs : Nat
  use_sarkar : Bool
  sarkar_scale : ℚ
  lr : ℚ
  deriving DecidableEq, Repr

/-- Constructor arguments of `Frechet(lr=..., eps=..., max_steps=...)`. -/
structure FrechetParams where
  lr : ℚ
  eps : ℚ
  max_steps : Nat
  deriving DecidableEq, Repr

/-- The five PCA variants imported from `learning.pca`. -/
inductive PcaVariant where
  | eucpca
  | tangentpca
  | pga
  | bsa
  | horopca
  deriving DecidableEq, Repr

/-- Constructor arguments of one PCA model:
`model_params['class'](dim=dim, n_components=n_components, lr=lr, max_steps=500)`. -/
structure PCAConstruction where
  variant : PcaVariant
  dim : Nat
  n_components : Nat
  lr : ℚ
  max_steps : Nat
  deriving DecidableEq, Repr

/-- One entry of the `pca_models` dictionary in `run`. -/
structure ModelParams where
  variant : PcaVariant
  optim : Bool
  iterative : Bool
  n_runs : Nat
  deriving DecidableEq, Repr

/-- The `pca_models` dictionary of `run` in `main2.ipynb`, as an association
list (insertion order preserved). -/
def pca_models (n_runs : Nat) : List (String × ModelParams) :=
  [("pca", ⟨.eucpca, false, false, 1⟩),
   ("tpca", ⟨.tangentpca, false, false, 1⟩),
   ("pga", ⟨.pga, true, true, n_runs⟩),
   ("bsa", ⟨.bsa, true, false, n_runs⟩),
   ("horopca", ⟨.horopca, true, false, n_runs⟩)]

/-- The values taken by the local variable `embeddings` of `run`: it starts
as the empty dict `{}`, is overwritten with a bare numpy array on each
iteration of the PCA fitting loop, and receives the dict entry
`embeddings["hMDS"]` in the hMDS branch. -/
inductive EmbVal (E : Type) where
  | emptyDict
  | arr (e : E)
  | hmdsEntry (e : E)
  deriving DecidableEq

/-- The value of the local variable `metrics` at the end of `run`: the
aggregate of the per-run metrics list in the PCA branch, or a single
metrics record in the hMDS branch. -/
inductive MetricsVal (M A : Type) where
  | agg (a : A)
  | single (m : M)
  deriving DecidableEq

/-- The external collaborators of the pipeline (spec §6): graph loader,
embedding loader, geometry and learning modules.  `G` is the graph type,
`P` point sets, `D` distance matrices, `M` metrics records, `A` aggregated
metrics, `E` numpy embedding arrays, `C` fitted component sets.  The
optimization-based fitting threads an integer RNG state to account for the
ambient random initialization. -/
structure Env (G P D M A E C : Type) where
  load_graph : String → G
  floyd_warshall : G → D
  pick_root : G → Nat
  sarkar : G → ℚ → Nat → Nat → P
  pairwise_distance : P → D
  div_dist : D → ℚ → D
  load_embeddings : String → Nat → P
  avg_distortion : D → D → ℚ
  frechet_init : P → P
  frechet_step : P → P
  frechet_change : P → P → ℚ
  reflect_at_zero : P → P → P
  fitOptim : PCAConstruction → P → Bool → Nat → C × Nat
  fitSpectral : PCAConstruction → P → C
  compute_metrics : C → P → M
  map_to_ball : C → P → E
  from_poincare : P → P
  hyp_distance : P → D
  mds : D → Nat → P
  to_poincare : P → P
  compute_metrics2 : P → P → M
  to_numpy : P → E
  aggregate : List M → A

/-- The `load_graph_data` function of `main2.ipynb`: loads the graph and its
Floyd–Warshall all-pairs shortest-path matrix. -/
def load_graph_data {G P D M A E C : Type} (env : Env G P D M A E C)
    (dataset : String) : (G × D) × List Ev :=
  let graph := env.load_graph dataset
  let graph_dist := env.floyd_warshall graph
  ((graph, graph_dist), [Ev.loadGraph dataset, Ev.floydWarshall])

/-- The `get_hyperbolic_embeddings` function of `main2.ipynb`.  The Sarkar
branch places the nodes with Sarkar's construction and divides the pairwise
Poincaré distances by `sarkar_scale`; the pretrained branch asserts
`dim in [2, 10, 50]` before loading anything, modelled as an `Except.error`
carrying the assertion message. -/
def get_hyperbolic_embeddings {G P D M A E C : Type} (env : Env G P D M A E C)
    (graph : G) (dataset : String) (dim : Nat) (use_sarkar : Bool)
    (sarkar_scale : ℚ) : Except String ((P × D) × List Ev) :=
  if use_sarkar then
    let root := env.pick_root graph
    let z := env.sarkar graph sarkar_scale root dim
    let z_dist := env.div_dist (env.pairwise_distance z) sarkar_scale
    .ok ((z, z_dist),
      [Ev.pickRoot, Ev.sarkarEmbed sarkar_scale dim, Ev.pairwiseDistance,
       Ev.divideBySarkarScale sarkar_scale])
  else
    if dim = 2 ∨ dim = 10 ∨ dim = 50 then
      let z := env.load_embeddings dataset dim
      .ok ((z, env.pairwise_distance z),
        [Ev.loadEmbeddings dataset dim, Ev.pairwiseDistance])
    else
      .error "pretrained embeddings are only for 2, 10 and 50 dimensions"

/-- Modelled from the spec: `learning/frechet.py` is not among the visible
sources.  Spec §4.4: each iteration applies one externally supplied
gradient-descent step to the candidate mean; the loop stops with flag true
when the step's parameter change falls below `eps`, and stops with flag
false when the step budget is exhausted. -/
def frechetLoop {P : Type} (eps : ℚ) (step : P → P) (change : P → P → ℚ) :
    Nat → P → P × Bool
  | 0, mu => (mu, false)
  | n + 1, mu =>
    let mu' := step mu
    if change mu mu' < eps then (mu', true) else frechetLoop eps step change n mu'

/-- Modelled from the spec: `Frechet(...).mean(x, return_converged=True)`.
Its return arity is fixed by its caller in both notebooks,
`mu_ref, has_converged = frechet.mean(z, return_converged=True)`: a pair of
the mean point and the convergence flag.  The initialization and the
gradient step are the externally supplied capabilities of spec §4.4/§6. -/
def frechetMean {P : Type} (params : FrechetParams) (init : P → P)
    (step : P → P) (change : P → P → ℚ) (x : P) : P × Bool :=
  frechetLoop params.eps step change params.max_steps (init x)

/-- A Python runtime value, used to describe the tuple returned by
`frechet.mean` at the Python level. -/
inductive PyVal (P : Type) where
  | point (p : P)
  | flag (b : Bool)
  | intVal (n : Nat)
  deriving DecidableEq

/-- The tuple returned by `frechet.mean(z, return_converged=True)`, written
as the list of its components: the mean point and the convergence flag. -/
def frechetMeanReturn {P : Type} (params : FrechetParams) (init : P → P)
    (step : P → P) (change : P → P → ℚ) (x : P) : List (PyVal P) :=
  let r := frechetMean params init step change x
  [PyVal.point r.1, PyVal.flag r.2]

/-- Python tuple unpacking into two names, as performed by the caller
`mu_ref, has_converged = frechet.mean(z, return_converged=True)`:
succeeds exactly when the returned tuple has two components. -/
def pyUnpack2 {P : Type} : List (PyVal P) → Except String (PyVal P × PyVal P)
  | [a, b] => .ok (a, b)
  | _ => .error "ValueError: unpacking"

/-- Modelled from the spec: `learning/pca.py` is not among the visible
sources.  Spec §4.5: `fit` dispatches on `useOptimization`; when false it
runs the closed-form spectral solution (deterministic, single pass, no
random initialization, so the RNG state passes through untouched); when
true it runs the iterative optimization from a random initialization,
consuming RNG state. -/
def PCA.fit {P C : Type} (fitOptim : PCAConstruction → P → Bool → Nat → C × Nat)
    (fitSpectral : PCAConstruction → P → C) (c : PCAConstruction) (x : P)
    (iterative : Bool) (optim : Bool) (rng : Nat) : C × Nat :=
  if optim then fitOptim c x iterative rng else (fitSpectral c x, rng)

/-- The mutable state of the fitting loop in `run`: the `metrics` list, the
`embeddings` variable, the ambient RNG state, plus the book-keeping of the
models constructed and the events emitted. -/
structure LoopState (M E : Type) where
  metrics : List M
  embeddings : EmbVal E
  rng : Nat
  models : List PCAConstruction
  trace : List Ev
  deriving DecidableEq

/-- The constructor call of one loop iteration of `run`:
`model_params['class'](dim=dim, n_components=n_components, lr=lr, max_steps=500)`. -/
def modelC (mp : ModelParams) (cfg : RunConfig) : PCAConstruction :=
  ⟨mp.variant, cfg.dim, cfg.n_components, cfg.lr, 500⟩

/-- The fitting loop of `run`: `for _ in range(model_params["n_runs"])`,
each iteration constructing a fresh model, fitting it, appending its
metrics to `metrics` and overwriting `embeddings` with its ball mapping. -/
def fitRuns {G P D M A E C : Type} (env : Env G P D M A E C) (mp : ModelParams)
    (cfg : RunConfig) (x : P) : Nat → LoopState M E → LoopState M E
  | 0, s => s
  | n + 1, s =>
    let c := modelC mp cfg
    let fr := PCA.fit env.fitOptim env.fitSpectral c x mp.iterative mp.optim s.rng
    let m := env.compute_metrics fr.1 x
    let e := env.map_to_ball fr.1 x
    fitRuns env mp cfg x n
      ⟨s.metrics ++ [m], EmbVal.arr e, fr.2, s.models ++ [c],
       s.trace ++ [Ev.constructModel cfg.dim cfg.n_components cfg.lr 500,
                   Ev.fitModel mp.iterative mp.optim,
                   Ev.computeMetricsEv, Ev.mapToBallEv]⟩

/-- The per-iteration outputs of the fitting loop: for each run, its metrics
record, its ball embedding, and the RNG state it leaves behind. -/
def runOutputs {G P D M A E C : Type} (env : Env G P D M A E C) (mp : ModelParams)
    (cfg : RunConfig) (x : P) : Nat → Nat → List (M × E × Nat)
  | 0, _ => []
  | n + 1, rng =>
    let c := modelC mp cfg
    let fr := PCA.fit env.fitOptim env.fitSpectral c x mp.iterative mp.optim rng
    (env.compute_metrics fr.1 x, env.map_to_ball fr.1 x, fr.2) ::
      runOutputs env mp cfg x n fr.2

/-- The record of one successful pipeline run. -/
structure RunResult (P M A E : Type) where
  frechetParams : FrechetParams
  mu : P
  converged : Bool
  centered : P
  models : List PCAConstruction
  metricsList : List M
  metricsOut : MetricsVal M A
  embVal : EmbVal E
  rngOut : Nat
  config : RunConfig
  deriving DecidableEq

/-- The `run` function of `main2.ipynb`: load the graph and its shortest
path matrix, obtain the hyperbolic embedding, compute the embedding's
average distortion, compute the Fréchet mean with the fixed constants
`Frechet(lr=1e-2, eps=1e-5, max_steps=5000)`, recenter with
`poincare.reflect_at_zero`, then either run the fitting loop of the chosen
PCA variant and aggregate the per-run metrics, or (for a model type outside
`pca_models`) run the hMDS baseline.  Returns the event trace together with
either the run record or the configuration-assertion error. -/
def runModel {G P D M A E C : Type} (env : Env G P D M A E C) (cfg : RunConfig)
    (rng : Nat) : List Ev × Except String (RunResult P M A E) :=
  let gd := load_graph_data env cfg.dataset
  let graph_dist := gd.1.2
  match get_hyperbolic_embeddings env gd.1.1 cfg.dataset cfg.dim cfg.use_sarkar
      cfg.sarkar_scale with
  | .error e => (gd.2, .error e)
  | .ok ((z, z_dist), tr1) =>
    let _distortion := env.avg_distortion graph_dist z_dist
    let fp : FrechetParams := ⟨1 / 100, 1 / 100000, 5000⟩
    let mr := frechetMean fp env.frechet_init env.frechet_step env.frechet_change z
    let x := env.reflect_at_zero z mr.1
    let tr2 := gd.2 ++ tr1 ++
      [Ev.avgDistortion, Ev.frechetMeanEv fp.lr fp.eps fp.max_steps,
       Ev.reflectAtZeroEv]
    match (pca_models cfg.n_runs).lookup cfg.model_type with
    | some mp =>
      let s := fitRuns env mp cfg x mp.n_runs ⟨[], EmbVal.emptyDict, rng, [], []⟩
      (tr2 ++ s.trace ++ [Ev.aggregateMetricsEv, Ev.formatMetricsEv],
       .ok ⟨fp, mr.1, mr.2, x, s.models, s.metrics,
            .agg (env.aggregate s.metrics), s.embeddings, s.rng, cfg⟩)
    | none =>
      let _x_hyperboloid := env.from_poincare x
      let _distances := env.hyp_distance x
      let d_p := env.pairwise_distance x
      let x_h := env.mds d_p cfg.n_components
      let x_proj := env.to_poincare x_h
      (tr2 ++ [Ev.hmdsBaseline cfg.n_components, Ev.formatMetricsEv],
       .ok ⟨fp, mr.1, mr.2, x, [], [],
            .single (env.compute_metrics2 x x_proj),
            EmbVal.hmdsEntry (env.to_numpy x_proj),
            rng, cfg⟩)

/-- The embedding produced by `get_hyperbolic_embeddings` for a
configuration, extracted for use in theorem statements. -/
def embeddingOf {G P D M A E C : Type} (env : Env G P D M A E C)
    (cfg : RunConfig) : P :=
  let graph := env.load_graph cfg.dataset
  if cfg.use_sarkar then
    env.sarkar graph cfg.sarkar_scale (env.pick_root graph) cfg.dim
  else
    env.load_embeddings cfg.dataset cfg.dim

/-- The Fréchet mean and convergence flag computed by `run`. -/
def muOf {G P D M A E C : Type} (env : Env G P D M A E C) (cfg : RunConfig) :
    P × Bool :=
  frechetMean ⟨1 / 100, 1 / 100000, 5000⟩ env.frechet_init env.frechet_step
    env.frechet_change (embeddingOf env cfg)

/-- The centered point set `x = poincare.reflect_at_zero(z, mu_ref)` of `run`. -/
def centeredOf {G P D M A E C : Type} (env : Env G P D M A E C)
    (cfg : RunConfig) : P :=
  env.reflect_at_zero (embeddingOf env cfg) (muOf env cfg).1

/-- A concrete trivial environment over unit types, used to instantiate the
pipeline theorems at concrete inputs. -/
def trivEnv : Env Unit Unit Unit Unit Unit Unit Unit where
  load_graph := fun _ => ()
  floyd_warshall := fun _ => ()
  pick_root := fun _ => 0
  sarkar := fun _ _ _ _ => ()
  pairwise_distance := fun _ => ()
  div_dist := fun _ _ => ()
  load_embeddings := fun _ _ => ()
  avg_distortion := fun _ _ => 0
  frechet_init := fun _ => ()
  frechet_step := fun _ => ()
  frechet_change := fun _ _ => 0
  reflect_at_zero := fun _ _ => ()
  fitOptim := fun _ _ _ rng => ((), rng + 1)
  fitSpectral := fun _ _ => ()
  compute_metrics := fun _ _ => ()
  map_to_ball := fun _ _ => ()
  from_poincare := fun _ => ()
  hyp_distance := fun _ => ()
  mds := fun _ _ => ()
  to_poincare := fun _ => ()
  compute_metrics2 := fun _ _ => ()
  to_numpy := fun _ => ()
  aggregate := fun _ => ()

/-- A concrete environment whose Fréchet step never meets the tolerance. -/
def stallEnv : Env Unit Unit Unit Unit Unit Unit Unit :=
  { trivEnv with frechet_change := fun _ _ => 1 }

/-- The block of events emitted by one iteration of the fitting loop. -/
def fitBlock (mp : ModelParams) (cfg : RunConfig) : List Ev :=
  [Ev.constructModel cfg.dim cfg.n_components cfg.lr 500,
   Ev.fitModel mp.iterative mp.optim, Ev.computeMetricsEv, Ev.mapToBallEv]

/-- The events emitted by `get_hyperbolic_embeddings` on success. -/
def embedEvents (cfg : RunConfig) : List Ev :=
  if cfg.use_sarkar then
    [Ev.pickRoot, Ev.sarkarEmbed cfg.sarkar_scale cfg.dim, Ev.pairwiseDistance,
     Ev.divideBySarkarScale cfg.sarkar_scale]
  else
    [Ev.loadEmbeddings cfg.dataset cfg.dim, Ev.pairwiseDistance]

/-- The events shared by every successful run before the model branch. -/
def preludeEvents (cfg : RunConfig) : List Ev :=
  [Ev.loadGraph cfg.dataset, Ev.floydWarshall] ++ embedEvents cfg ++
    [Ev.avgDistortion, Ev.frechetMeanEv (1 / 100) (1 / 100000) 5000,
     Ev.reflectAtZeroEv]

/-- Initial loop state of the fitting loop in `run`: empty metrics list,
`embeddings = {}`, the ambient RNG state. -/
def initLoopState {M E : Type} (rng : Nat) : LoopState M E :=
  ⟨[], EmbVal.emptyDict, rng, [], []⟩

/-- Final loop state of the fitting loop in `run`. -/
def loopResultOf {G P D M A E C : Type} (env : Env G P D M A E C)
    (cfg : RunConfig) (mp : ModelParams) (rng : Nat) : LoopState M E :=
  fitRuns env mp cfg (centeredOf env cfg) mp.n_runs (initLoopState rng)

/-- The hMDS low-dimensional reconstruction computed in the else branch of
`run`. -/
def hmdsProjOf {G P D M A E C : Type} (env : Env G P D M A E C)
    (cfg : RunConfig) : P :=
  env.to_poincare
    (env.mds (env.pairwise_distance (centeredOf env cfg)) cfg.n_components)

/-- A concrete configuration choosing the HoroPCA variant with two runs. -/
def cfgHoro : RunConfig := ⟨"smalltree", "horopca", 10, 2, 2, true, 7 / 2, 1 / 20⟩

/-- A concrete configuration choosing the closed-form TangentPCA variant. -/
def cfgTpca : RunConfig := ⟨"smalltree", "tpca", 10, 2, 5, true, 7 / 2, 1 / 20⟩

/-- A concrete configuration choosing the hMDS baseline model type, one of
the model types iterated over in the last cell of `main2.ipynb`. -/
def cfgHmds : RunConfig := ⟨"smalltree", "hmds", 10, 2, 5, false, 7 / 2, 1 / 20⟩

/-- A concrete configuration requesting pretrained embeddings in an invalid
dimension. -/
def cfgBadDim : RunConfig := ⟨"ca-CSphd", "horopca", 7, 2, 5, false, 7 / 2, 1 / 20⟩

/-- Euclidean dot product of rational coordinate vectors. -/
def dotQ {d : Nat} (x y : Fin d → ℚ) : ℚ := ∑ i, x i * y i

/-- Squared Euclidean norm. -/
def sqnormQ {d : Nat} (x : Fin d → ℚ) : ℚ := dotQ x x

/-- Inverse hyperbolic cosine on the reals (Mathlib has `arsinh` only). -/
noncomputable def arcosh (t : ℝ) : ℝ := Real.log (t + Real.sqrt (t ^ 2 - 1))

namespace hyperboloid

/-- Modelled from the spec: `geom/hyperboloid.py` is absent from src.
Spec §4.2: `fromPoincare` maps ball points to hyperboloid points via the
standard projective correspondence; with the Minkowski form of §4.1 the
time coordinate is index 0:
`x ↦ ((1+|x|²)/(1−|x|²), 2x/(1−|x|²))`. -/
def from_poincare {d : Nat} (x : Fin d → ℚ) : Fin (d + 1) → ℚ :=
  Fin.cons ((1 + sqnormQ x) / (1 - sqnormQ x))
    (fun i => 2 * x i / (1 - sqnormQ x))

/-- Modelled from the spec: `toPoincare` is the inverse mapping, dividing
the space part by one plus the time coordinate: `y ↦ y₁.../(1+y₀)`. -/
def to_poincare {d : Nat} (y : Fin (d + 1) → ℚ) : Fin d → ℚ :=
  fun i => y i.succ / (1 + y 0)

end hyperboloid

namespace poincare

/-- Modelled from the spec: `geom/poincare.py` is absent from src.
Spec §4.3 describes `reflectAtZero(z, mu)` as the reflection isometry
taking the center mu to the origin; in ball coordinates this is the circle
inversion through the sphere centered at `a = mu/|mu|²`, whose squared
radius `|a|² − 1` makes it orthogonal to the unit sphere.
`reflection_center` computes the inversion center a. -/
def reflection_center {d : Nat} (mu : Fin d → ℚ) : Fin d → ℚ :=
  fun i => mu i / sqnormQ mu

/-- Modelled from the spec: the circle inversion of x through the sphere
centered at a with squared radius `|a|² − 1`. -/
def isometric_transform {d : Nat} (a x : Fin d → ℚ) : Fin d → ℚ :=
  fun i => (sqnormQ a - 1) / sqnormQ (fun j => x j - a j) * (x i - a i) + a i

/-- Modelled from the spec: the recentering isometry of §4.3, the inversion
that maps mu to the origin. -/
def reflect_at_zero {d : Nat} (x mu : Fin d → ℚ) : Fin d → ℚ :=
  isometric_transform (reflection_center mu) x

/-- The Möbius-invariant quantity `δ(x,y) = |x−y|²/((1−|x|²)(1−|y|²))`; the
Poincaré ball distance is `arcosh(1 + 2δ)`. -/
def delta {d : Nat} (x y : Fin d → ℚ) : ℚ :=
  sqnormQ (fun i => x i - y i) / ((1 - sqnormQ x) * (1 - sqnormQ y))

/-- The Poincaré ball distance `d(x,y) = arcosh(1 + 2 δ(x,y))` (the exact
real-valued counterpart of the floating-point distance of §4.3). -/
noncomputable def distance {d : Nat} (x y : Fin d → ℚ) : ℝ :=
  arcosh (1 + 2 * ((delta x y : ℚ) : ℝ))

end poincare

/-- Modelled from the spec: `utils/sarkar.py` is absent from src.  Spec
§4.6: `pick_root` selects a node of maximum eccentricity — for the path
graph 1-2-…-7 an endpoint — and `sarkar` places the root at the manifold
origin and each child at hyperbolic distance `tau · edgeWeight` from its
parent along the direction of maximal angular separation from the
placements already made.  On a path every node has exactly one child,
whose maximally separated direction is the continuation of its parent's
geodesic, so all nodes lie on a single geodesic through the origin; each
node is represented here by its arc-length coordinate along that geodesic
(hyperbolic distance along a geodesic is additive), the root at 0 and each
successive node placed `tau · 1` beyond its parent. -/
def sarkarPathCoord (tau : ℚ) : Nat → ℚ
  | 0 => 0
  | n + 1 => sarkarPathCoord tau n + tau * 1

/-- Hyperbolic distance between two points of a common geodesic, in terms
of their arc-length coordinates. -/
def geodesicDist (s t : ℚ) : ℚ := |s - t|

/-- Shortest-path distance between two nodes of the unit-weight path
graph. -/
def pathGraphDist (i j : Nat) : ℚ := |(i : ℚ) - (j : ℚ)|

theorem fitRuns_eq {G P D M A E C : Type} (env : Env G P D M A E C)
    (mp : ModelParams) (cfg : RunConfig) (x : P) :
    ∀ (n : Nat) (s : LoopState M E),
    fitRuns env mp cfg x n s =
      ⟨s.metrics ++ (runOutputs env mp cfg x n s.rng).map (fun o => o.1),
       (runOutputs env mp cfg x n s.rng).foldl (fun _ o => EmbVal.arr o.2.1)
         s.embeddings,
       (runOutputs env mp cfg x n s.rng).foldl (fun _ o => o.2.2) s.rng,
       s.models ++ List.replicate n (modelC mp cfg),
       s.trace ++ (List.replicate n (fitBlock mp cfg)).flatten⟩ := by
  intro n
  induction n with
  | zero => intro s; simp [fitRuns, runOutputs]
  | succ n ih =>
    intro s
    rw [fitRuns, ih]
    simp [runOutputs, fitBlock, List.replicate_succ]

theorem runOutputs_length {G P D M A E C : Type} (env : Env G P D M A E C)
    (mp : ModelParams) (cfg : RunConfig) (x : P) :
    ∀ (n : Nat) (rng : Nat), (runOutputs env mp cfg x n rng).length = n := by
  intro n
  induction n with
  | zero => intro rng; simp [runOutputs]
  | succ n ih => intro rng; simp [runOutputs, ih]

theorem foldl_overwrite {α β : Type} (f : α → β) :
    ∀ (l : List α) (acc : β),
    l.foldl (fun _ a => f a) acc = ((l.getLast?).map f).getD acc := by
  intro l
  induction l with
  | nil => intro acc; simp
  | cons a l ih =>
    intro acc
    cases l with
    | nil => simp [List.foldl]
    | cons b l' =>
      rw [List.foldl_cons, ih, List.getLast?_cons_cons]
      obtain ⟨y, hy⟩ : ∃ y, (b :: l').getLast? = some y := by
        cases h : (b :: l').getLast? with
        | none => rw [List.getLast?_eq_none_iff] at h; simp at h
        | some y => exact ⟨y, rfl⟩
      rw [hy]
      rfl

theorem runModel_pca_eq {G P D M A E C : Type} (env : Env G P D M A E C)
    (cfg : RunConfig) (rng : Nat) (mp : ModelParams)
    (h : (pca_models cfg.n_runs).lookup cfg.model_type = some mp)
    (hval : cfg.use_sarkar = true ∨ cfg.dim = 2 ∨ cfg.dim = 10 ∨ cfg.dim = 50) :
    runModel env cfg rng =
      (preludeEvents cfg ++ (loopResultOf env cfg mp rng).trace ++
         [Ev.aggregateMetricsEv, Ev.formatMetricsEv],
       Except.ok
         ⟨⟨1 / 100, 1 / 100000, 5000⟩, (muOf env cfg).1, (muOf env cfg).2,
          centeredOf env cfg, (loopResultOf env cfg mp rng).models,
          (loopResultOf env cfg mp rng).metrics,
          MetricsVal.agg (env.aggregate (loopResultOf env cfg mp rng).metrics),
          (loopResultOf env cfg mp rng).embeddings,
          (loopResultOf env cfg mp rng).rng, cfg⟩) := by
  cases hs : cfg.use_sarkar with
  | true =>
    simp [runModel, load_graph_data, get_hyperbolic_embeddings, hs, h,
      preludeEvents, embedEvents, loopResultOf, initLoopState, centeredOf,
      muOf, embeddingOf, frechetMean]
  | false =>
    have hd : cfg.dim = 2 ∨ cfg.dim = 10 ∨ cfg.dim = 50 := by
      rcases hval with h' | h'
      · rw [hs] at h'; cases h'
      · exact h'
    simp [runModel, load_graph_data, get_hyperbolic_embeddings, hs, hd, h,
      preludeEvents, embedEvents, loopResultOf, initLoopState, centeredOf,
      muOf, embeddingOf, frechetMean]

theorem runModel_hmds_eq {G P D M A E C : Type} (env : Env G P D M A E C)
    (cfg : RunConfig) (rng : Nat)
    (h : (pca_models cfg.n_runs).lookup cfg.model_type = none)
    (hval : cfg.use_sarkar = true ∨ cfg.dim = 2 ∨ cfg.dim = 10 ∨ cfg.dim = 50) :
    runModel env cfg rng =
      (preludeEvents cfg ++ [Ev.hmdsBaseline cfg.n_components, Ev.formatMetricsEv],
       Except.ok
         ⟨⟨1 / 100, 1 / 100000, 5000⟩, (muOf env cfg).1, (muOf env cfg).2,
          centeredOf env cfg, [], [],
          MetricsVal.single (env.compute_metrics2 (centeredOf env cfg)
            (hmdsProjOf env cfg)),
          EmbVal.hmdsEntry (env.to_numpy (hmdsProjOf env cfg)), rng, cfg⟩) := by
  cases hs : cfg.use_sarkar with
  | true =>
    simp [runModel, load_graph_data, get_hyperbolic_embeddings, hs, h,
      preludeEvents, embedEvents, hmdsProjOf, centeredOf, muOf, embeddingOf,
      frechetMean]
  | false =>
    have hd : cfg.dim = 2 ∨ cfg.dim = 10 ∨ cfg.dim = 50 := by
      rcases hval with h' | h'
      · rw [hs] at h'; cases h'
      · exact h'
    simp [runModel, load_graph_data, get_hyperbolic_embeddings, hs, hd, h,
      preludeEvents, embedEvents, hmdsProjOf, centeredOf, muOf, embeddingOf,
      frechetMean]

theorem runModel_error_eq {G P D M A E C : Type} (env : Env G P D M A E C)
    (cfg : RunConfig) (rng : Nat) (hs : cfg.use_sarkar = false)
    (h2 : cfg.dim ≠ 2) (h10 : cfg.dim ≠ 10) (h50 : cfg.dim ≠ 50) :
    runModel env cfg rng =
      ([Ev.loadGraph cfg.dataset, Ev.floydWarshall],
       Except.error
         "pretrained embeddings are only for 2, 10 and 50 dimensions") := by
  simp [runModel, load_graph_data, get_hyperbolic_embeddings, hs, h2, h10, h50]

theorem frechetLoop_stall {P : Type} (eps : ℚ) (step : P → P)
    (change : P → P → ℚ) (h : ∀ p, eps ≤ change p (step p)) :
    ∀ (n : Nat) (mu : P), frechetLoop eps step change n mu = (step^[n] mu, false) := by
  intro n
  induction n with
  | zero => intro mu; rfl
  | succ n ih =>
    intro mu
    rw [frechetLoop]
    simp only [not_lt.mpr (h mu), if_false]
    rw [ih, Function.iterate_succ_apply]

theorem countP_isFit_preludeEvents (cfg : RunConfig) :
    (preludeEvents cfg).countP Ev.isFit = 0 := by
  cases hs : cfg.use_sarkar with
  | true => simp [preludeEvents, embedEvents, hs, List.countP_cons, Ev.isFit]
  | false => simp [preludeEvents, embedEvents, hs, List.countP_cons, Ev.isFit]

theorem countP_isFit_fitBlocks (mp : ModelParams) (cfg : RunConfig) (n : Nat) :
    ((List.replicate n (fitBlock mp cfg)).flatten).countP Ev.isFit = n := by
  simp [List.countP_flatten, List.map_replicate, List.sum_replicate,
    smul_eq_mul, fitBlock, List.countP_cons, Ev.isFit]

theorem runOutputs_spectral {G P D M A E C : Type} (env : Env G P D M A E C)
    (mp : ModelParams) (cfg : RunConfig) (x : P) (hopt : mp.optim = false) :
    ∀ (n r r' : Nat),
    (runOutputs env mp cfg x n r).map (fun o => (o.1, o.2.1)) =
      (runOutputs env mp cfg x n r').map (fun o => (o.1, o.2.1)) := by
  intro n
  induction n with
  | zero => intro r r'; rfl
  | succ n ih =>
    intro r r'
    simp only [runOutputs, PCA.fit, hopt, Bool.false_eq_true, if_false,
      List.map_cons]
    exact congrArg _ (ih r r')

/-- C1 (amended): for every environment and RNG state, and every
configuration whose embedding source is valid and whose model type is one
of the five PCA variants, the pipeline emits exactly the fixed stage
order: load the graph and its all-pairs shortest-path matrix; obtain the
hyperbolic embedding (Sarkar construction or pretrained file); compute the
average distortion; compute the Fréchet mean and recenter by
`reflect_at_zero`; then run the fitting loop of that one variant and
aggregate its metrics — and every model constructed in the loop is of that
single variant. -/
theorem run_pipeline_stage_order {G P D M A E C : Type} (env : Env G P D M A E C)
    (cfg : RunConfig) (rng : Nat) (mp : ModelParams)
    (hl : (pca_models cfg.n_runs).lookup cfg.model_type = some mp)
    (hval : cfg.use_sarkar = true ∨ cfg.dim = 2 ∨ cfg.dim = 10 ∨ cfg.dim = 50) :
    (runModel env cfg rng).1 =
      [Ev.loadGraph cfg.dataset, Ev.floydWarshall] ++ embedEvents cfg ++
        [Ev.avgDistortion, Ev.frechetMeanEv (1 / 100) (1 / 100000) 5000,
         Ev.reflectAtZeroEv] ++
        (List.replicate mp.n_runs (fitBlock mp cfg)).flatten ++
        [Ev.aggregateMetricsEv, Ev.formatMetricsEv] ∧
      (loopResultOf env cfg mp rng).models =
        List.replicate mp.n_runs (modelC mp cfg) := by
  rw [runModel_pca_eq env cfg rng mp hl hval]
  constructor
  · simp [preludeEvents, loopResultOf, fitRuns_eq, initLoopState,
      List.append_assoc]
  · simp [loopResultOf, fitRuns_eq, initLoopState]

/-- C1 witness: the stage-order theorem applied at a concrete environment
and the HoroPCA configuration. -/
theorem run_pipeline_stage_order_witness :
    (pca_models cfgHoro.n_runs).lookup cfgHoro.model_type =
        some ⟨.horopca, true, false, 2⟩ ∧
      (runModel trivEnv cfgHoro 0).1 =
        [Ev.loadGraph cfgHoro.dataset, Ev.floydWarshall] ++ embedEvents cfgHoro ++
          [Ev.avgDistortion, Ev.frechetMeanEv (1 / 100) (1 / 100000) 5000,
           Ev.reflectAtZeroEv] ++
          (List.replicate 2 (fitBlock ⟨.horopca, true, false, 2⟩ cfgHoro)).flatten ++
          [Ev.aggregateMetricsEv, Ev.formatMetricsEv] :=
  ⟨by decide,
   (run_pipeline_stage_order trivEnv cfgHoro 0 ⟨.horopca, true, false, 2⟩
      (by decide) (Or.inl rfl)).1⟩

/-- C1 counterexample: the claim quantifies over every model configuration,
but with `model_type = "hmds"` (one of the model types exercised by the
notebook's final cell) the pipeline runs the hMDS baseline and fits no PCA
variant at all: the number of `fit` calls is 0, not 1. -/
theorem run_hmds_fits_no_pca_variant :
    (runModel trivEnv cfgHmds 0).1.countP Ev.isFit = 0 ∧
      ¬ (runModel trivEnv cfgHmds 0).1.countP Ev.isFit = 1 := by
  constructor
  · decide
  · decide

/-- C3: when pretrained embeddings are requested (`use_sarkar` false) with a
dimension outside {2, 10, 50}, the pipeline stops with the configuration
assertion error, and the event trace shows that no computation on the
embedding ever started: only the graph and its distance matrix were
loaded. -/
theorem pretrained_invalid_dim_fails_fast {G P D M A E C : Type}
    (env : Env G P D M A E C) (cfg : RunConfig) (rng : Nat)
    (hs : cfg.use_sarkar = false) (h2 : cfg.dim ≠ 2) (h10 : cfg.dim ≠ 10)
    (h50 : cfg.dim ≠ 50) :
    (runModel env cfg rng).2 =
        Except.error
          "pretrained embeddings are only for 2, 10 and 50 dimensions" ∧
      (runModel env cfg rng).1 = [Ev.loadGraph cfg.dataset, Ev.floydWarshall] := by
  rw [runModel_error_eq env cfg rng hs h2 h10 h50]
  exact ⟨rfl, rfl⟩

/-- C3 witness: the fail-fast theorem applied at a concrete environment and
a pretrained-embedding configuration with dimension 7. -/
theorem pretrained_invalid_dim_fails_fast_witness :
    (runModel trivEnv cfgBadDim 0).2 =
        Except.error
          "pretrained embeddings are only for 2, 10 and 50 dimensions" ∧
      (runModel trivEnv cfgBadDim 0).1 =
        [Ev.loadGraph cfgBadDim.dataset, Ev.floydWarshall] :=
  pretrained_invalid_dim_fails_fast trivEnv cfgBadDim 0 rfl (by decide)
    (by decide) (by decide)

/-- C8: the dimension restriction is enforced only on the pretrained path.
With `use_sarkar` true, `get_hyperbolic_embeddings` succeeds for every
`dim` whatsoever and proceeds with the Sarkar construction (root picking,
Sarkar placement, pairwise distances divided by the scale); with
`use_sarkar` false the very same dimension is rejected whenever it lies
outside {2, 10, 50}. -/
theorem sarkar_branch_accepts_any_dim {G P D M A E C : Type}
    (env : Env G P D M A E C) (graph : G) (dataset : String) (dim : Nat)
    (tau : ℚ) :
    (get_hyperbolic_embeddings env graph dataset dim true tau =
        Except.ok
          ((env.sarkar graph tau (env.pick_root graph) dim,
            env.div_dist
              (env.pairwise_distance (env.sarkar graph tau (env.pick_root graph) dim))
              tau),
           [Ev.pickRoot, Ev.sarkarEmbed tau dim, Ev.pairwiseDistance,
            Ev.divideBySarkarScale tau])) ∧
      (dim ≠ 2 → dim ≠ 10 → dim ≠ 50 →
        get_hyperbolic_embeddings env graph dataset dim false tau =
          Except.error
            "pretrained embeddings are only for 2, 10 and 50 dimensions") := by
  constructor
  · simp [get_hyperbolic_embeddings]
  · intro h2 h10 h50
    simp [get_hyperbolic_embeddings, h2, h10, h50]

/-- C8 witness: the Sarkar branch accepts dimension 7, which the pretrained
branch rejects. -/
theorem sarkar_branch_accepts_any_dim_witness :
    (get_hyperbolic_embeddings trivEnv () "smalltree" 7 true (7 / 2) =
        Except.ok
          (((), ()),
           [Ev.pickRoot, Ev.sarkarEmbed (7 / 2) 7, Ev.pairwiseDistance,
            Ev.divideBySarkarScale (7 / 2)])) ∧
      get_hyperbolic_embeddings trivEnv () "smalltree" 7 false (7 / 2) =
        Except.error
          "pretrained embeddings are only for 2, 10 and 50 dimensions" :=
  ⟨(sarkar_branch_accepts_any_dim trivEnv () "smalltree" 7 (7 / 2)).1,
   (sarkar_branch_accepts_any_dim trivEnv () "smalltree" 7 (7 / 2)).2
     (by decide) (by decide) (by decide)⟩

/-- C9: for every successful run, whatever the configuration, the Fréchet
estimator is constructed with the fixed constants
`Frechet(lr=1e-2, eps=1e-5, max_steps=5000)` — in particular the
configuration's `lr` never reaches the Fréchet-mean computation — and
every PCA model is constructed with `max_steps=500` and with the
configuration's `lr`, `dim` and `n_components`. -/
theorem run_hyperparameters {G P D M A E C : Type} (env : Env G P D M A E C)
    (cfg : RunConfig) (rng : Nat) (res : RunResult P M A E)
    (h : (runModel env cfg rng).2 = Except.ok res) :
    res.frechetParams = ⟨1 / 100, 1 / 100000, 5000⟩ ∧
      ∀ c ∈ res.models,
        c.max_steps = 500 ∧ c.lr = cfg.lr ∧ c.dim = cfg.dim ∧
          c.n_components = cfg.n_components := by
  by_cases hval : cfg.use_sarkar = true ∨ cfg.dim = 2 ∨ cfg.dim = 10 ∨ cfg.dim = 50
  · cases hl : (pca_models cfg.n_runs).lookup cfg.model_type with
    | some mp =>
      rw [runModel_pca_eq env cfg rng mp hl hval] at h
      simp only [Except.ok.injEq] at h
      subst h
      refine ⟨rfl, ?_⟩
      intro c hc
      simp only [loopResultOf, fitRuns_eq, initLoopState, List.nil_append,
        List.mem_replicate] at hc
      rw [hc.2]
      exact ⟨rfl, rfl, rfl, rfl⟩
    | none =>
      rw [runModel_hmds_eq env cfg rng hl hval] at h
      simp only [Except.ok.injEq] at h
      subst h
      exact ⟨rfl, by intro c hc; cases hc⟩
  · push_neg at hval
    rw [runModel_error_eq env cfg rng (by simpa using hval.1) hval.2.1
      hval.2.2.1 hval.2.2.2] at h
    cases h

/-- C9 witness: the hyperparameter theorem applied at a concrete run of the
HoroPCA configuration. -/
theorem run_hyperparameters_witness :
    (∃ res, (runModel trivEnv cfgHoro 0).2 = Except.ok res) ∧
      ∀ res, (runModel trivEnv cfgHoro 0).2 = Except.ok res →
        res.frechetParams = ⟨1 / 100, 1 / 100000, 5000⟩ ∧
          ∀ c ∈ res.models,
            c.max_steps = 500 ∧ c.lr = cfgHoro.lr ∧ c.dim = cfgHoro.dim ∧
              c.n_components = cfgHoro.n_components := by
  constructor
  · exact ⟨_, by rw [runModel_pca_eq trivEnv cfgHoro 0 ⟨.horopca, true, false, 2⟩
      (by decide) (Or.inl rfl)]⟩
  · intro res h
    exact run_hyperparameters trivEnv cfgHoro 0 res h

/-- C10: after the multi-run fitting loop, the metrics of every run are in
the accumulated list (one entry per run, in order) and are aggregated,
while the `embeddings` variable holds only the ball embedding of the last
run — it is overwritten on each iteration, so all earlier runs' embeddings
are lost. -/
theorem run_keeps_only_last_embedding {G P D M A E C : Type}
    (env : Env G P D M A E C) (cfg : RunConfig) (rng : Nat) (mp : ModelParams)
    (res : RunResult P M A E)
    (hl : (pca_models cfg.n_runs).lookup cfg.model_type = some mp)
    (h : (runModel env cfg rng).2 = Except.ok res) :
    res.metricsList =
        (runOutputs env mp cfg (centeredOf env cfg) mp.n_runs rng).map
          (fun o => o.1) ∧
      res.metricsList.length = mp.n_runs ∧
      res.metricsOut = MetricsVal.agg (env.aggregate res.metricsList) ∧
      res.embVal =
        (((runOutputs env mp cfg (centeredOf env cfg) mp.n_runs rng).getLast?).map
            (fun o => EmbVal.arr o.2.1)).getD EmbVal.emptyDict := by
  by_cases hval : cfg.use_sarkar = true ∨ cfg.dim = 2 ∨ cfg.dim = 10 ∨ cfg.dim = 50
  · rw [runModel_pca_eq env cfg rng mp hl hval] at h
    simp only [Except.ok.injEq] at h
    subst h
    refine ⟨?_, ?_, rfl, ?_⟩
    · simp [loopResultOf, fitRuns_eq, initLoopState]
    · simp [loopResultOf, fitRuns_eq, initLoopState, runOutputs_length]
    · simp [loopResultOf, fitRuns_eq, initLoopState, foldl_overwrite]
  · push_neg at hval
    rw [runModel_error_eq env cfg rng (by simpa using hval.1) hval.2.1
      hval.2.2.1 hval.2.2.2] at h
    cases h

/-- C10 witness: the last-embedding theorem applied at a concrete run of the
HoroPCA configuration with two runs. -/
theorem run_keeps_only_last_embedding_witness :
    (∃ res, (runModel trivEnv cfgHoro 0).2 = Except.ok res) ∧
      ∀ res, (runModel trivEnv cfgHoro 0).2 = Except.ok res →
        res.metricsList =
            (runOutputs trivEnv ⟨.horopca, true, false, 2⟩ cfgHoro
              (centeredOf trivEnv cfgHoro) 2 0).map (fun o => o.1) ∧
          res.metricsList.length = 2 ∧
          res.metricsOut = MetricsVal.agg (trivEnv.aggregate res.metricsList) ∧
          res.embVal =
            (((runOutputs trivEnv ⟨.horopca, true, false, 2⟩ cfgHoro
                (centeredOf trivEnv cfgHoro) 2 0).getLast?).map
                (fun o => EmbVal.arr o.2.1)).getD EmbVal.emptyDict := by
  constructor
  · exact ⟨_, by rw [runModel_pca_eq trivEnv cfgHoro 0 ⟨.horopca, true, false, 2⟩
      (by decide) (Or.inl rfl)]⟩
  · intro res h
    exact run_keeps_only_last_embedding trivEnv cfgHoro 0
      ⟨.horopca, true, false, 2⟩ res (by decide) h

theorem map_fst_congr {α β γ : Type} (f : α → β) (g : β → γ) (l₁ l₂ : List α)
    (h : l₁.map f = l₂.map f) :
    l₁.map (fun a => g (f a)) = l₂.map (fun a => g (f a)) := by
  calc l₁.map (fun a => g (f a)) = (l₁.map f).map g := by rw [List.map_map]; rfl
    _ = (l₂.map f).map g := by rw [h]
    _ = l₂.map (fun a => g (f a)) := by rw [List.map_map]; rfl

theorem getLast?_map_congr {α β γ : Type} (f : α → β) (g : β → γ)
    (l₁ l₂ : List α) (h : l₁.map f = l₂.map f) :
    l₁.getLast?.map (fun a => g (f a)) = l₂.getLast?.map (fun a => g (f a)) := by
  have h2 : l₁.getLast?.map f = l₂.getLast?.map f := by
    rw [← List.getLast?_map, ← List.getLast?_map, h]
  calc l₁.getLast?.map (fun a => g (f a)) = (l₁.getLast?.map f).map g := by
        rw [Option.map_map]; rfl
    _ = (l₂.getLast?.map f).map g := by rw [h2]
    _ = l₂.getLast?.map (fun a => g (f a)) := by rw [Option.map_map]; rfl

theorem lookup_pga (n : Nat) :
    (pca_models n).lookup "pga" = some ⟨.pga, true, true, n⟩ := rfl

theorem lookup_bsa (n : Nat) :
    (pca_models n).lookup "bsa" = some ⟨.bsa, true, false, n⟩ := rfl

theorem lookup_horopca (n : Nat) :
    (pca_models n).lookup "horopca" = some ⟨.horopca, true, false, n⟩ := rfl

theorem lookup_pca (n : Nat) :
    (pca_models n).lookup "pca" = some ⟨.eucpca, false, false, 1⟩ := rfl

theorem lookup_tpca (n : Nat) :
    (pca_models n).lookup "tpca" = some ⟨.tangentpca, false, false, 1⟩ := rfl

theorem countP_isFit_fitBlock (mp : ModelParams) (cfg : RunConfig) :
    (fitBlock mp cfg).countP Ev.isFit = 1 := by
  simp [fitBlock, List.countP_cons, Ev.isFit]

/-- C5: in every run, the chosen variant is fitted exactly
`pca_models[model_type]["n_runs"]` times — `n_runs` times for the
stochastic variants PGA, BSA and HoroPCA (each run constructing a fresh
model, with the RNG state advanced run to run by the optimization), and
exactly once for the closed-form variants EucPCA and TangentPCA; for the
closed-form variants the whole loop output is independent of the RNG seed,
and `fit` with `optim=false` returns identical components regardless of
the RNG state, i.e. re-running it on the same input reproduces the same
components. -/
theorem stochastic_multirun_closedform_once {G P D M A E C : Type}
    (env : Env G P D M A E C) (cfg : RunConfig) (rng rng' : Nat)
    (mp : ModelParams)
    (hl : (pca_models cfg.n_runs).lookup cfg.model_type = some mp)
    (hval : cfg.use_sarkar = true ∨ cfg.dim = 2 ∨ cfg.dim = 10 ∨ cfg.dim = 50) :
    (runModel env cfg rng).1.countP Ev.isFit = mp.n_runs ∧
      ((cfg.model_type = "pga" ∨ cfg.model_type = "bsa" ∨
          cfg.model_type = "horopca") →
        mp.n_runs = cfg.n_runs ∧ mp.optim = true) ∧
      ((cfg.model_type = "pca" ∨ cfg.model_type = "tpca") →
        mp.n_runs = 1 ∧ mp.optim = false) ∧
      (mp.optim = false →
        (loopResultOf env cfg mp rng).metrics =
            (loopResultOf env cfg mp rng').metrics ∧
          (loopResultOf env cfg mp rng).embeddings =
            (loopResultOf env cfg mp rng').embeddings ∧
          (loopResultOf env cfg mp rng).models =
            (loopResultOf env cfg mp rng').models) ∧
      (∀ (fo : PCAConstruction → P → Bool → Nat → C × Nat)
          (fs : PCAConstruction → P → C) (c : PCAConstruction) (x : P)
          (it : Bool) (r₁ r₂ : Nat),
        (PCA.fit fo fs c x it false r₁).1 = (PCA.fit fo fs c x it false r₂).1) := by
  refine ⟨?_, ?_, ?_, ?_, fun fo fs c x it r₁ r₂ => rfl⟩
  · rw [runModel_pca_eq env cfg rng mp hl hval]
    simp [List.countP_append, countP_isFit_preludeEvents, loopResultOf,
      fitRuns_eq, initLoopState, countP_isFit_fitBlocks, List.countP_cons,
      Ev.isFit, countP_isFit_fitBlock]
  · intro hmt
    rcases hmt with h | h | h
    · rw [h, lookup_pga] at hl
      simp only [Option.some.injEq] at hl
      rw [← hl]
      exact ⟨rfl, rfl⟩
    · rw [h, lookup_bsa] at hl
      simp only [Option.some.injEq] at hl
      rw [← hl]
      exact ⟨rfl, rfl⟩
    · rw [h, lookup_horopca] at hl
      simp only [Option.some.injEq] at hl
      rw [← hl]
      exact ⟨rfl, rfl⟩
  · intro hmt
    rcases hmt with h | h
    · rw [h, lookup_pca] at hl
      simp only [Option.some.injEq] at hl
      rw [← hl]
      exact ⟨rfl, rfl⟩
    · rw [h, lookup_tpca] at hl
      simp only [Option.some.injEq] at hl
      rw [← hl]
      exact ⟨rfl, rfl⟩
  · intro hopt
    have hsp := runOutputs_spectral env mp cfg (centeredOf env cfg) hopt
      mp.n_runs rng rng'
    refine ⟨?_, ?_, ?_⟩
    · simp only [loopResultOf, fitRuns_eq, initLoopState, List.nil_append]
      exact map_fst_congr (fun o : M × E × Nat => (o.1, o.2.1)) Prod.fst _ _ hsp
    · simp only [loopResultOf, fitRuns_eq, initLoopState, foldl_overwrite]
      exact congrArg (fun z => Option.getD z EmbVal.emptyDict)
        (getLast?_map_congr (fun o : M × E × Nat => (o.1, o.2.1))
          (fun q : M × E => EmbVal.arr q.2) _ _ hsp)
    · simp [loopResultOf, fitRuns_eq, initLoopState]

/-- C5 witness: the multi-run theorem applied at a concrete environment with
the closed-form TangentPCA configuration (fitted once, RNG-independent)
alongside the fit counts it implies. -/
theorem stochastic_multirun_closedform_once_witness :
    (runModel trivEnv cfgTpca 0).1.countP Ev.isFit = 1 ∧
      (loopResultOf trivEnv cfgTpca ⟨.tangentpca, false, false, 1⟩ 0).metrics =
        (loopResultOf trivEnv cfgTpca ⟨.tangentpca, false, false, 1⟩ 37).metrics := by
  have h := stochastic_multirun_closedform_once trivEnv cfgTpca 0 37
    ⟨.tangentpca, false, false, 1⟩ (by decide) (Or.inl rfl)
  exact ⟨h.1, (h.2.2.2.1 rfl).1⟩

/-- C2 (amended): the Fréchet-mean estimator returns exactly two values,
the mean point and a convergence flag.  When no step meets the tolerance
within the step budget, the loop terminates normally with the flag false
and the stepped mean (no error is raised), the caller's two-value
unpacking succeeds, and the pipeline proceeds to recenter the data with
the returned, possibly non-converged, mean. -/
theorem frechet_mean_flag_and_caller_proceeds {Q : Type}
    (params : FrechetParams) (init step : Q → Q) (change : Q → Q → ℚ) (x : Q)
    {G P D M A E C : Type} (env : Env G P D M A E C) (cfg : RunConfig)
    (rng : Nat) (mp : ModelParams) :
    ((∀ p, params.eps ≤ change p (step p)) →
        frechetMean params init step change x =
          (step^[params.max_steps] (init x), false)) ∧
      pyUnpack2 (frechetMeanReturn params init step change x) =
        Except.ok (PyVal.point (frechetMean params init step change x).1,
          PyVal.flag (frechetMean params init step change x).2) ∧
      ((pca_models cfg.n_runs).lookup cfg.model_type = some mp →
        (cfg.use_sarkar = true ∨ cfg.dim = 2 ∨ cfg.dim = 10 ∨ cfg.dim = 50) →
        (∀ p, (1 : ℚ) / 100000 ≤ env.frechet_change p (env.frechet_step p)) →
        ∃ res : RunResult P M A E,
          (runModel env cfg rng).2 = Except.ok res ∧
            res.converged = false ∧
            res.centered = env.reflect_at_zero (embeddingOf env cfg) res.mu) := by
  refine ⟨?_, rfl, ?_⟩
  · intro hnc
    rw [frechetMean, frechetLoop_stall params.eps step change hnc]
  · intro hl hval hnc
    rw [runModel_pca_eq env cfg rng mp hl hval]
    refine ⟨_, rfl, ?_, rfl⟩
    show (muOf env cfg).2 = false
    rw [muOf, frechetMean,
      frechetLoop_stall _ env.frechet_step env.frechet_change hnc]

/-- C2 witness: a stalled Fréchet iteration at tolerance 1e-5 ends with the
flag false after the full step budget, and a pipeline whose Fréchet step
never converges still completes and recenters with the returned mean. -/
theorem frechet_mean_flag_and_caller_proceeds_witness :
    frechetMean ⟨1 / 100, 1 / 100000, 5000⟩ (id : ℚ → ℚ) (fun q => q + 1)
        (fun _ _ => 1) 0 = ((fun q : ℚ => q + 1)^[5000] 0, false) ∧
      ∃ res : RunResult Unit Unit Unit Unit,
        (runModel stallEnv cfgHoro 0).2 = Except.ok res ∧
          res.converged = false ∧
          res.centered =
            stallEnv.reflect_at_zero (embeddingOf stallEnv cfgHoro) res.mu := by
  have h := frechet_mean_flag_and_caller_proceeds
    (⟨1 / 100, 1 / 100000, 5000⟩ : FrechetParams) (id : ℚ → ℚ)
    (fun q => q + 1) (fun _ _ => 1) 0 stallEnv cfgHoro 0
    ⟨.horopca, true, false, 2⟩
  exact ⟨h.1 (fun p => by norm_num), h.2.2 (by decide) (Or.inl rfl)
    (fun p => by norm_num [stallEnv])⟩

/-- C2 counterexample: at a concrete input, the value returned by
`frechet.mean(z, return_converged=True)` has exactly two components — the
mean point and the flag.  No component is an iteration count, and a
three-component return would make the caller's two-name unpacking in `run`
raise a ValueError instead of succeeding as recorded in the notebook. -/
theorem frechet_mean_returns_no_iteration_count :
    (frechetMeanReturn ⟨1 / 100, 1 / 100000, 5000⟩ (id : ℚ → ℚ) id
        (fun _ _ => 0) 0).length = 2 ∧
      (∀ n : Nat, PyVal.intVal n ∉ frechetMeanReturn ⟨1 / 100, 1 / 100000, 5000⟩
          (id : ℚ → ℚ) id (fun _ _ => 0) 0) ∧
      (∀ (p : ℚ) (b : Bool) (n : Nat),
        pyUnpack2 [PyVal.point p, PyVal.flag b, PyVal.intVal n] =
          Except.error "ValueError: unpacking") := by
  refine ⟨rfl, ?_, fun p b n => rfl⟩
  intro n hmem
  simp [frechetMeanReturn] at hmem

/-- C7: for every interior point x of the open unit ball, the hyperboloid
round trip `to_poincare(from_poincare(x))` returns x exactly (the rational
arithmetic is exact, so in particular within the spec's 1e-9 tolerance,
stated as the second conjunct). -/
theorem to_poincare_from_poincare {d : Nat} (x : Fin d → ℚ)
    (h : sqnormQ x < 1) :
    hyperboloid.to_poincare (hyperboloid.from_poincare x) = x ∧
      ∀ i, |hyperboloid.to_poincare (hyperboloid.from_poincare x) i - x i| ≤
        1 / 1000000000 := by
  have hne : (1 : ℚ) - sqnormQ x ≠ 0 := by linarith
  have hmain : hyperboloid.to_poincare (hyperboloid.from_poincare x) = x := by
    funext i
    simp only [hyperboloid.to_poincare, hyperboloid.from_poincare,
      Fin.cons_succ, Fin.cons_zero]
    field_simp
    ring
  refine ⟨hmain, fun i => ?_⟩
  rw [hmain]
  simp

/-- C7 witness: the round-trip theorem applied at the concrete interior
point (1/2, 1/3). -/
theorem to_poincare_from_poincare_witness :
    sqnormQ (![(1 : ℚ) / 2, 1 / 3]) < 1 ∧
      hyperboloid.to_poincare (hyperboloid.from_poincare ![(1 : ℚ) / 2, 1 / 3]) =
        ![(1 : ℚ) / 2, 1 / 3] := by
  have hlt : sqnormQ (![(1 : ℚ) / 2, 1 / 3]) < 1 := by
    norm_num [sqnormQ, dotQ, Fin.sum_univ_two, Matrix.cons_val_zero,
      Matrix.cons_val_one, Matrix.head_cons]
  exact ⟨hlt, (to_poincare_from_poincare ![(1 : ℚ) / 2, 1 / 3] hlt).1⟩

theorem sqnormQ_nonneg {d : Nat} (x : Fin d → ℚ) : 0 ≤ sqnormQ x :=
  Finset.sum_nonneg fun i _ => mul_self_nonneg (x i)

theorem sqnormQ_eq_zero_iff {d : Nat} (x : Fin d → ℚ) :
    sqnormQ x = 0 ↔ ∀ i, x i = 0 := by
  rw [sqnormQ, dotQ,
    Finset.sum_eq_zero_iff_of_nonneg fun i _ => mul_self_nonneg (x i)]
  constructor
  · intro h i
    exact mul_self_eq_zero.mp (h i (Finset.mem_univ i))
  · intro h i _
    rw [h i]
    ring

theorem sqnormQ_smul {d : Nat} (c : ℚ) (v : Fin d → ℚ) :
    sqnormQ (fun i => c * v i) = c ^ 2 * sqnormQ v := by
  simp only [sqnormQ, dotQ, Finset.mul_sum]
  exact Finset.sum_congr rfl fun i _ => by ring

theorem dotQ_sub_left {d : Nat} (x y z : Fin d → ℚ) :
    dotQ (fun i => x i - y i) z = dotQ x z - dotQ y z := by
  simp only [dotQ, ← Finset.sum_sub_distrib]
  exact Finset.sum_congr rfl fun i _ => by ring

theorem sqnormQ_sub {d : Nat} (x y : Fin d → ℚ) :
    sqnormQ (fun i => x i - y i) = sqnormQ x - 2 * dotQ x y + sqnormQ y := by
  simp only [sqnormQ, dotQ, Finset.mul_sum, ← Finset.sum_sub_distrib,
    ← Finset.sum_add_distrib]
  exact Finset.sum_congr rfl fun i _ => by ring

theorem dotQ_sub_sub {d : Nat} (x y a : Fin d → ℚ) :
    dotQ (fun j => x j - a j) (fun j => y j - a j) =
      dotQ x y - dotQ x a - dotQ y a + sqnormQ a := by
  simp only [sqnormQ, dotQ, ← Finset.sum_sub_distrib, ← Finset.sum_add_distrib]
  exact Finset.sum_congr rfl fun i _ => by ring

theorem sqnormQ_reflection_center {d : Nat} (mu : Fin d → ℚ)
    (h : sqnormQ mu ≠ 0) :
    sqnormQ (poincare.reflection_center mu) = 1 / sqnormQ mu := by
  have hrw : poincare.reflection_center mu = fun i => (sqnormQ mu)⁻¹ * mu i :=
    funext fun i => by rw [poincare.reflection_center, div_eq_inv_mul]
  rw [hrw, sqnormQ_smul]
  field_simp
  ring

theorem sqnormQ_transform {d : Nat} (a x : Fin d → ℚ) :
    sqnormQ (poincare.isometric_transform a x) =
      ((sqnormQ a - 1) / sqnormQ (fun j => x j - a j)) ^ 2 *
          sqnormQ (fun j => x j - a j) +
        2 * ((sqnormQ a - 1) / sqnormQ (fun j => x j - a j)) *
          dotQ (fun j => x j - a j) a +
        sqnormQ a := by
  simp only [sqnormQ, dotQ, poincare.isometric_transform, Finset.mul_sum,
    ← Finset.sum_add_distrib]
  exact Finset.sum_congr rfl fun i _ => by ring

theorem sqnormQ_transform_sub {d : Nat} (a x y : Fin d → ℚ) :
    sqnormQ (fun i => poincare.isometric_transform a x i -
        poincare.isometric_transform a y i) =
      ((sqnormQ a - 1) / sqnormQ (fun j => x j - a j)) ^ 2 *
          sqnormQ (fun j => x j - a j)
        - 2 * (((sqnormQ a - 1) / sqnormQ (fun j => x j - a j)) *
            ((sqnormQ a - 1) / sqnormQ (fun j => y j - a j))) *
          dotQ (fun j => x j - a j) (fun j => y j - a j)
        + ((sqnormQ a - 1) / sqnormQ (fun j => y j - a j)) ^ 2 *
          sqnormQ (fun j => y j - a j) := by
  simp only [sqnormQ, dotQ, poincare.isometric_transform, Finset.mul_sum,
    ← Finset.sum_sub_distrib, ← Finset.sum_add_distrib]
  exact Finset.sum_congr rfl fun i _ => by ring

theorem one_sub_sqnormQ_transform {d : Nat} (a x : Fin d → ℚ)
    (hsu : sqnormQ (fun j => x j - a j) ≠ 0) :
    1 - sqnormQ (poincare.isometric_transform a x) =
      (sqnormQ a - 1) * (1 - sqnormQ x) / sqnormQ (fun j => x j - a j) := by
  have hdu : dotQ (fun j => x j - a j) a = dotQ x a - sqnormQ a :=
    dotQ_sub_left x a a
  have hsub : sqnormQ (fun j => x j - a j) =
      sqnormQ x - 2 * dotQ x a + sqnormQ a := sqnormQ_sub x a
  have hsu' : sqnormQ x - 2 * dotQ x a + sqnormQ a ≠ 0 := by
    rw [← hsub]
    exact hsu
  rw [sqnormQ_transform, hdu, hsub]
  field_simp
  ring

theorem delta_isometric_transform {d : Nat} (a x y : Fin d → ℚ)
    (ha : sqnormQ a ≠ 1) (hx : sqnormQ x ≠ 1) (hy : sqnormQ y ≠ 1)
    (hxa : sqnormQ (fun j => x j - a j) ≠ 0)
    (hya : sqnormQ (fun j => y j - a j) ≠ 0) :
    poincare.delta (poincare.isometric_transform a x)
        (poincare.isometric_transform a y) = poincare.delta x y := by
  have hr : sqnormQ a - 1 ≠ 0 := sub_ne_zero.mpr ha
  have hx1 : (1 : ℚ) - sqnormQ x ≠ 0 := sub_ne_zero.mpr (Ne.symm hx)
  have hy1 : (1 : ℚ) - sqnormQ y ≠ 0 := sub_ne_zero.mpr (Ne.symm hy)
  have hxa' : sqnormQ x - 2 * dotQ x a + sqnormQ a ≠ 0 := by
    rw [← sqnormQ_sub]
    exact hxa
  have hya' : sqnormQ y - 2 * dotQ y a + sqnormQ a ≠ 0 := by
    rw [← sqnormQ_sub]
    exact hya
  simp only [poincare.delta]
  rw [one_sub_sqnormQ_transform a x hxa, one_sub_sqnormQ_transform a y hya,
    sqnormQ_transform_sub, dotQ_sub_sub, sqnormQ_sub x a, sqnormQ_sub y a,
    sqnormQ_sub x y]
  field_simp
  ring

/-- C6: for all points x, y in the open unit ball and any nonzero center mu
in the open ball, the recentering operation `reflect_at_zero` is an
isometry: the Poincaré distance between the images equals the Poincaré
distance between x and y exactly (hence in particular up to any
floating-point tolerance), equivalently the Möbius invariant δ is
preserved. -/
theorem reflect_at_zero_isometry {d : Nat} (x y mu : Fin d → ℚ)
    (hmu0 : 0 < sqnormQ mu) (hmu1 : sqnormQ mu < 1)
    (hx : sqnormQ x < 1) (hy : sqnormQ y < 1) :
    poincare.distance (poincare.reflect_at_zero x mu)
        (poincare.reflect_at_zero y mu) = poincare.distance x y ∧
      poincare.delta (poincare.reflect_at_zero x mu)
        (poincare.reflect_at_zero y mu) = poincare.delta x y := by
  have hq : sqnormQ mu ≠ 0 := ne_of_gt hmu0
  have hsa : sqnormQ (poincare.reflection_center mu) = 1 / sqnormQ mu :=
    sqnormQ_reflection_center mu hq
  have hsa1 : 1 < sqnormQ (poincare.reflection_center mu) := by
    rw [hsa, lt_div_iff₀ hmu0]
    linarith
  have hxa : sqnormQ (fun j => x j - poincare.reflection_center mu j) ≠ 0 := by
    intro h0
    have hall := (sqnormQ_eq_zero_iff _).mp h0
    have hxe : x = poincare.reflection_center mu := funext fun i => by
      have := hall i
      linarith
    rw [hxe] at hx
    linarith
  have hya : sqnormQ (fun j => y j - poincare.reflection_center mu j) ≠ 0 := by
    intro h0
    have hall := (sqnormQ_eq_zero_iff _).mp h0
    have hye : y = poincare.reflection_center mu := funext fun i => by
      have := hall i
      linarith
    rw [hye] at hy
    linarith
  have hdelta := delta_isometric_transform (poincare.reflection_center mu) x y
    (ne_of_gt hsa1) (ne_of_lt hx) (ne_of_lt hy) hxa hya
  constructor
  · simp only [poincare.distance, poincare.reflect_at_zero]
    rw [hdelta]
  · simp only [poincare.reflect_at_zero]
    exact hdelta

/-- C6 witness: the isometry theorem applied at the concrete ball points
x = (1/2, 0), y = (0, 1/3) and center mu = (1/4, 1/4). -/
theorem reflect_at_zero_isometry_witness :
    (0 < sqnormQ (![(1 : ℚ) / 4, 1 / 4]) ∧
        sqnormQ (![(1 : ℚ) / 4, 1 / 4]) < 1 ∧
        sqnormQ (![(1 : ℚ) / 2, 0]) < 1 ∧ sqnormQ (![(0 : ℚ), 1 / 3]) < 1) ∧
      poincare.distance
          (poincare.reflect_at_zero ![(1 : ℚ) / 2, 0] ![(1 : ℚ) / 4, 1 / 4])
          (poincare.reflect_at_zero ![(0 : ℚ), 1 / 3] ![(1 : ℚ) / 4, 1 / 4]) =
        poincare.distance ![(1 : ℚ) / 2, 0] ![(0 : ℚ), 1 / 3] := by
  have h1 : 0 < sqnormQ (![(1 : ℚ) / 4, 1 / 4]) := by
    norm_num [sqnormQ, dotQ, Fin.sum_univ_two, Matrix.cons_val_zero,
      Matrix.cons_val_one, Matrix.head_cons]
  have h2 : sqnormQ (![(1 : ℚ) / 4, 1 / 4]) < 1 := by
    norm_num [sqnormQ, dotQ, Fin.sum_univ_two, Matrix.cons_val_zero,
      Matrix.cons_val_one, Matrix.head_cons]
  have h3 : sqnormQ (![(1 : ℚ) / 2, 0]) < 1 := by
    norm_num [sqnormQ, dotQ, Fin.sum_univ_two, Matrix.cons_val_zero,
      Matrix.cons_val_one, Matrix.head_cons]
  have h4 : sqnormQ (![(0 : ℚ), 1 / 3]) < 1 := by
    norm_num [sqnormQ, dotQ, Fin.sum_univ_two, Matrix.cons_val_zero,
      Matrix.cons_val_one, Matrix.head_cons]
  exact ⟨⟨h1, h2, h3, h4⟩,
    (reflect_at_zero_isometry ![(1 : ℚ) / 2, 0] ![(0 : ℚ), 1 / 3]
      ![(1 : ℚ) / 4, 1 / 4] h1 h2 h3 h4).1⟩

theorem sarkarPathCoord_eq (tau : ℚ) (n : Nat) :
    sarkarPathCoord tau n = tau * n := by
  induction n with
  | zero => simp [sarkarPathCoord]
  | succ n ih =>
    rw [sarkarPathCoord, ih]
    push_cast
    ring

/-- C4: for the 7-node path graph 1-2-3-4-5-6-7 with unit edge weights,
tau = 3.5, the Sarkar branch (root at an endpoint, geodesic placement,
pairwise distances divided by the Sarkar scale) reproduces every pairwise
graph distance exactly, and in particular within 5% relative error. -/
theorem sarkar_path7_distortion :
    ∀ i j : Fin 7,
      geodesicDist (sarkarPathCoord (7 / 2) i) (sarkarPathCoord (7 / 2) j) /
          (7 / 2) = pathGraphDist i j ∧
        |geodesicDist (sarkarPathCoord (7 / 2) i) (sarkarPathCoord (7 / 2) j) /
            (7 / 2) - pathGraphDist i j| ≤ 5 / 100 * pathGraphDist i j := by
  intro i j
  have hexact : geodesicDist (sarkarPathCoord (7 / 2) i)
      (sarkarPathCoord (7 / 2) j) / (7 / 2) = pathGraphDist i j := by
    rw [geodesicDist, pathGraphDist, sarkarPathCoord_eq, sarkarPathCoord_eq,
      ← mul_sub, abs_mul, abs_of_pos (by norm_num : (0 : ℚ) < 7 / 2)]
    exact mul_div_cancel_left₀ _ (by norm_num)
  refine ⟨hexact, ?_⟩
  rw [hexact, sub_self, abs_zero, pathGraphDist]
  positivity
